import Mathlib

/-!
Verification of the path-resolution and archive-extraction subsystem of the
deploy-tar repository (src/service/path_utils.go, src/service/file_service.go).

The Go code works over lexical path strings via the standard library
`path/filepath` (Unix separator '/').  We embed those library functions
faithfully at the `List Char` level: `goClean` models `filepath.Clean`,
`goJoin` models `filepath.Join` (two arguments, the only arity used by the
code), `goRel` models `filepath.Rel`, `goAbs` models `filepath.Abs` with the
process working directory passed explicitly, `goDir` models `filepath.Dir`,
and `goIsAbs` models `filepath.IsAbs`.  `strings.HasPrefix` / `HasSuffix` /
`TrimSuffix` / `TrimRight(s, "/")` / `ToLower` are modelled on `String.data`.

The filesystem is modelled as an association list from absolute path strings
to nodes (directory, or file with byte content); `os.Stat`, `os.RemoveAll`,
`os.MkdirAll`, `os.Remove` and file creation are modelled on that state.
Permission bits, I/O failures of individual writes, and symbolic links are
outside the model (none of the verified claims depends on them).
-/

/-- Decidable equality for `Except`, so that concrete runs of the modelled
operations can be checked by `decide`. -/
instance {ε α : Type} [DecidableEq ε] [DecidableEq α] : DecidableEq (Except ε α) := fun a b =>
  match a, b with
  | Except.ok x, Except.ok y =>
    if h : x = y then Decidable.isTrue (congrArg Except.ok h)
    else Decidable.isFalse (fun c => h (Except.ok.inj c))
  | Except.error x, Except.error y =>
    if h : x = y then Decidable.isTrue (congrArg Except.error h)
    else Decidable.isFalse (fun c => h (Except.error.inj c))
  | Except.ok _, Except.error _ => Decidable.isFalse (fun c => Except.noConfusion c)
  | Except.error _, Except.ok _ => Decidable.isFalse (fun c => Except.noConfusion c)

namespace DeployTar

/-- A path segment: the characters between two separators. -/
abbrev Seg := List Char

/-- Split a character list on the separator '/'.  `splitSeg "a/b"` is
`["a", "b"]`, `splitSeg ""` is `[""]`, mirroring how `filepath.Clean`
walks the elements of a path. -/
def splitSeg : List Char → List Seg
  | [] => [[]]
  | c :: rest =>
    if c = '/' then [] :: splitSeg rest
    else
      match splitSeg rest with
      | [] => [[c]]
      | s :: ss => (c :: s) :: ss

/-- One step of `filepath.Clean`'s element processing: empty and "."
elements are dropped; ".." pops the last stack element when it can
backtrack, is dropped at the root when the path is rooted, and is kept
otherwise; every other element is pushed. -/
def clStep (rooted : Bool) (st : List Seg) (s : Seg) : List Seg :=
  if s = [] ∨ s = ['.'] then st
  else if s = ['.', '.'] then
    if st ≠ [] ∧ st.getLast? ≠ some ['.', '.'] then st.dropLast
    else if rooted then st
    else st ++ [s]
  else st ++ [s]

/-- The cleaned segment stack of a path: `filepath.Clean`'s output segments. -/
def cleanStack (rooted : Bool) (segs : List Seg) : List Seg :=
  segs.foldl (clStep rooted) []

/-- Join segments with '/' between them. -/
def joinSegs : List Seg → List Char
  | [] => []
  | [s] => s
  | s :: s2 :: rest => s ++ '/' :: joinSegs (s2 :: rest)

/-- `filepath.Clean` on a character list (Unix rules): empty input becomes
".", a rooted path keeps its leading '/', an empty cleaned relative path
becomes ".". -/
def cleanChars (l : List Char) : List Char :=
  if l = [] then ['.']
  else if l.head? = some '/' then '/' :: joinSegs (cleanStack true (splitSeg l))
  else
    let st := cleanStack false (splitSeg l)
    if st = [] then ['.'] else joinSegs st

/-- `filepath.Clean` on strings. -/
def goClean (s : String) : String := ⟨cleanChars s.data⟩

/-- `strings.HasPrefix s p`. -/
def strHasPfx (s p : String) : Bool := p.data.isPrefixOf s.data

/-- `strings.HasSuffix s p`. -/
def strHasSfx (s p : String) : Bool := p.data.isSuffixOf s.data

/-- `strings.TrimSuffix s p`. -/
def strTrimSfx (s p : String) : String :=
  if strHasSfx s p then ⟨s.data.take (s.data.length - p.data.length)⟩ else s

/-- `strings.ToLower` (ASCII, which is all the dispatch suffixes need). -/
def strToLower (s : String) : String := ⟨s.data.map Char.toLower⟩

/-- `strings.TrimRight s "/"`: remove all trailing '/' characters. -/
def strTrimRightSlash (s : String) : String :=
  ⟨(s.data.reverse.dropWhile (fun c => c == '/')).reverse⟩

/-- `strings.HasSuffix s "/"` specialised to the separator. -/
def strEndsSlash (s : String) : Bool := s.data.getLast? == some '/'

/-- `filepath.IsAbs` (Unix): the path starts with '/'. -/
def goIsAbs (p : String) : Bool := strHasPfx p "/"

/-- `filepath.Join a b` (two-argument form, the only one the code uses):
skip a leading empty element, then clean the separator-joined result. -/
def goJoin (a b : String) : String :=
  if a = "" then (if b = "" then "" else goClean b)
  else goClean (a ++ "/" ++ b)

/-- `filepath.Abs` with the working directory passed explicitly:
an absolute path is cleaned, a relative one is joined to `cwd`. -/
def goAbs (cwd p : String) : String :=
  if goIsAbs p then goClean p else goJoin cwd p

/-- Drop the longest common prefix of two segment lists (the first loop of
`filepath.Rel`). -/
def dropCommon : List Seg → List Seg → List Seg × List Seg
  | a :: as, b :: bs => if a = b then dropCommon as bs else (a :: as, b :: bs)
  | as, bs => (as, bs)

/-- `filepath.Rel basep targp` (Unix): both paths are cleaned; equal paths
give ".", mixed rooted/relative paths fail, a base continuing with ".."
after the common prefix fails, and otherwise the result climbs with ".."
segments and descends with the remaining target segments.  `none` models
Go's error return. -/
def goRel (basep targp : String) : Option String :=
  let br := goIsAbs basep
  let tr := goIsAbs targp
  let bs := cleanStack br (splitSeg basep.data)
  let ts := cleanStack tr (splitSeg targp.data)
  if br = tr ∧ bs = ts then some "."
  else if br ≠ tr then none
  else
    let ts2 := if tr = false ∧ ts = [] then [['.']] else ts
    let p := dropCommon bs ts2
    if p.1.head? = some ['.', '.'] then none
    else some ⟨joinSegs (List.replicate p.1.length ['.', '.'] ++ p.2)⟩

/-- `filepath.Dir`: everything up to and including the final separator,
cleaned; "." when there is no separator. -/
def goDir (p : String) : String :=
  goClean ⟨(p.data.reverse.dropWhile (fun c => c != '/')).reverse⟩

/-! ## Filesystem model

The filesystem is an association list from absolute cleaned path strings to
nodes.  The Unix root "/" always exists as a directory. -/

/-- A filesystem node: a directory, or a regular file with its bytes. -/
inductive Node
  | dir : Node
  | file : List Nat → Node
deriving DecidableEq, Repr

/-- Filesystem state. -/
def FS := List (String × Node)

instance : DecidableEq FS := by unfold FS; infer_instance

/-- Look a path up (models `os.Stat` on an absolute path); "/" always exists. -/
def fsGet (fs : FS) (p : String) : Option Node :=
  if p = "/" then some Node.dir
  else (fs.find? (fun e => e.1 == p)).map (fun e => e.2)

/-- Create or overwrite the node stored at `p`. -/
def setNode (fs : FS) (p : String) (n : Node) : FS :=
  (p, n) :: fs.filter (fun e => !(e.1 == p))

/-- `os.Remove` of a single path. -/
def removeFile (fs : FS) (p : String) : FS :=
  fs.filter (fun e => !(e.1 == p))

/-- `os.RemoveAll`: delete the path and everything below it; absence is not
an error. -/
def removeAll (fs : FS) (p : String) : FS :=
  fs.filter (fun e => !(e.1 == p || strHasPfx e.1 (p ++ "/")))

/-- One `os.Mkdir`: the path must not exist and its parent must be a
directory. -/
def mkdir (fs : FS) (p : String) : Except Unit FS :=
  match fsGet fs p with
  | some _ => Except.error ()
  | none =>
    if fsGet fs (goDir p) = some Node.dir then Except.ok (setNode fs p Node.dir)
    else Except.error ()

/-- `os.MkdirAll`, fuelled (the recursion of the Go implementation strips the
final path element each round, so `length + 1` fuel always suffices):
an existing directory is fine, an existing file is an error, otherwise the
parent is created first and then the path itself. -/
def mkdirAllF : Nat → FS → String → Except Unit FS
  | 0, _, _ => Except.error ()
  | f + 1, fs, p =>
    match fsGet fs p with
    | some Node.dir => Except.ok fs
    | some (Node.file _) => Except.error ()
    | none =>
      let rest := p.data.reverse.dropWhile (fun c => c != '/')
      if rest.length > 1 then
        match mkdirAllF f fs ⟨(rest.drop 1).reverse⟩ with
        | Except.error e => Except.error e
        | Except.ok fs1 => mkdir fs1 p
      else mkdir fs p

/-- `os.MkdirAll`. -/
def mkdirAll (fs : FS) (p : String) : Except Unit FS :=
  mkdirAllF (p.data.length + 1) fs p

/-- `os.OpenFile(p, O_CREATE|O_RDWR|O_TRUNC)` followed by a full copy of
`content`: fails on an existing directory or a missing parent directory,
overwrites an existing file. -/
def writeFile (fs : FS) (p : String) (content : List Nat) : Except Unit FS :=
  match fsGet fs p with
  | some Node.dir => Except.error ()
  | _ =>
    if fsGet fs (goDir p) = some Node.dir then
      Except.ok (setNode fs p (Node.file content))
    else Except.error ()

/-! ## Archive extraction (`extractTar` in src/service/file_service.go)

A tar stream is modelled as the list of entries the tar decoder yields,
followed by either a clean end-of-stream or a header read error. -/

/-- A tar entry type flag: directory, regular file, or any other type
(which the code silently ignores). -/
inductive TarType
  | dir
  | reg
  | other
deriving DecidableEq, Repr

/-- One decoded tar header plus its payload. -/
structure TarEntry where
  name : String
  typeflag : TarType
  mode : Nat
  content : List Nat
deriving DecidableEq, Repr

/-- Errors of `extractTar`, tagged by the source's distinct messages. -/
inductive ExtractErr
  | emptyArchive
  | headerReadErr
  | unsafeEntry
  | outsideEntry
  | ioErr
deriving DecidableEq, Repr

/-- The error category the transport layer maps to a status code:
entry names escaping the target are Forbidden. -/
def ExtractErr.isForbidden : ExtractErr → Bool
  | ExtractErr.unsafeEntry => true
  | ExtractErr.outsideEntry => true
  | _ => false

/-- Empty or corrupt archives are BadFormat. -/
def ExtractErr.isBadFormat : ExtractErr → Bool
  | ExtractErr.emptyArchive => true
  | ExtractErr.headerReadErr => true
  | _ => false

/-- One iteration of `extractTar`'s loop (file_service.go lines 315-367):
clean the entry name, reject absolute or parent-traversing names, join with
the extraction directory, re-check containment on the joined path, then
create the directory or write the file.  `none` in the second component
means "continue with the next entry". -/
def extractStep (base : String) (fs : FS) (h : TarEntry) : FS × Option ExtractErr :=
  let cn := goClean h.name
  if goIsAbs cn || strHasPfx cn "../" || cn == ".." then
    (fs, some ExtractErr.unsafeEntry)
  else
    let tp := goJoin base cn
    if !(strHasPfx tp (base ++ "/")) && tp != base then
      (fs, some ExtractErr.outsideEntry)
    else
      match h.typeflag with
      | TarType.dir =>
        match mkdirAll fs tp with
        | Except.error _ => (fs, some ExtractErr.ioErr)
        | Except.ok fs1 => (fs1, none)
      | TarType.reg =>
        match mkdirAll fs (goDir tp) with
        | Except.error _ => (fs, some ExtractErr.ioErr)
        | Except.ok fs1 =>
          match writeFile fs1 tp h.content with
          | Except.error _ => (fs1, some ExtractErr.ioErr)
          | Except.ok fs2 => (fs2, none)
      | TarType.other => (fs, none)

/-- The per-entry loop of `extractTar`: run `extractStep` until an entry
fails or the list is exhausted.  The returned state is the filesystem at
the moment the loop stops, so earlier entries persist on error, exactly as
in the Go code. -/
def extractEntries (base : String) : FS → List TarEntry → FS × Option ExtractErr
  | fs, [] => (fs, none)
  | fs, h :: rest =>
    match extractStep base fs h with
    | (fs1, some e) => (fs1, some e)
    | (fs1, none) => extractEntries base fs1 rest

/-- `extractTar` (file_service.go lines 311-370): process the decoded
entries; a trailing header read error aborts; a stream whose very first
decode was end-of-stream (zero entries) with a non-empty archive name is
treated as an empty or invalid archive. -/
def extractTar (fs : FS) (entries : List TarEntry) (readErr : Bool)
    (base archiveName : String) : FS × Option ExtractErr :=
  match extractEntries base fs entries with
  | (fs1, some e) => (fs1, some e)
  | (fs1, none) =>
    if readErr then (fs1, some ExtractErr.headerReadErr)
    else if entries.isEmpty && archiveName != "" then
      (fs1, some ExtractErr.emptyArchive)
    else (fs1, none)

/-! ## Upload orchestration (`UploadFile` in src/service/file_service.go)

The incoming byte stream is modelled by the decode views the code can take
of it: whether `gzip.NewReader` accepts it, the tar stream obtained through
the gzip layer, the tar stream obtained directly, the fully decompressed
bytes (`none` models a mid-stream decompression failure), and the raw bytes. -/

/-- Abstract view of the upload input stream. -/
structure InStream where
  gzipOk : Bool
  gzTarEntries : List TarEntry
  gzTarReadErr : Bool
  tarEntries : List TarEntry
  tarReadErr : Bool
  gzBytes : Option (List Nat)
  rawBytes : List Nat
deriving Repr

/-- Errors of `UploadFile`, one per distinct error return of the source. -/
inductive UploadErr
  | emptyTarget
  | dotTarget
  | traversalTarget
  | absOutside
  | pfxNotFound
  | pfxNotDir
  | relErr
  | scopeTraversal
  | mkdirFail
  | gzipHeaderErr
  | extractFail : ExtractErr → UploadErr
  | fileNameInvalid
  | fileTraversal
  | createFail
  | copyFail
deriving DecidableEq, Repr

/-- Forbidden category (traversal / outside-scope), per the spec taxonomy. -/
def UploadErr.isForbidden : UploadErr → Bool
  | UploadErr.traversalTarget => true
  | UploadErr.absOutside => true
  | UploadErr.scopeTraversal => true
  | UploadErr.fileNameInvalid => true
  | UploadErr.fileTraversal => true
  | UploadErr.extractFail e => e.isForbidden
  | _ => false

/-- BadFormat category (gzip header invalid, tar stream empty or corrupt). -/
def UploadErr.isBadFormat : UploadErr → Bool
  | UploadErr.gzipHeaderErr => true
  | UploadErr.extractFail e => e.isBadFormat
  | _ => false

/-- The payload classification of UploadFile (file_service.go lines
214-218): suffixes are checked on the lowercased name with `.tar.gz`/`.tgz`
taking precedence over `.tar`, which takes precedence over `.gz`. -/
inductive UploadKind
  | gzipTar
  | plainTar
  | singleGz
  | plainFile
deriving DecidableEq, Repr

/-- Dispatch by filename suffix, mirroring the four booleans and the
`if isTgz || isTarGz / else if isTar / else if isGz / else` chain. -/
def classifyUpload (fileName : String) : UploadKind :=
  let lower := strToLower fileName
  let isTgz := strHasSfx lower ".tgz"
  let isTarGz := strHasSfx lower ".tar.gz"
  let isTar := strHasSfx lower ".tar" && !isTarGz
  let isGz := strHasSfx lower ".gz" && !isTarGz && !isTgz
  if isTgz || isTarGz then UploadKind.gzipTar
  else if isTar then UploadKind.plainTar
  else if isGz then UploadKind.singleGz
  else UploadKind.plainFile

/-- Cleaning of the PATH_PREFIX environment value (file_service.go lines
120-126 and path_utils.go lines 19-23): "." and "/" mean "no restriction". -/
def cleanPfx (env : String) : String :=
  if env != "" then
    let c := goClean env
    if c == "." || c == "/" then "" else c
  else ""

/-- The Validating phase of `UploadFile` (file_service.go lines 117-201):
target cleaning, the empty/"."/traversal rejections, absolute-versus-prefix
scoping, the prefix stat, and the relative-path scope re-check.  Returns
the validated absolute target directory. -/
def uploadValidate (fs : FS) (targetDirUserPath pathPfxEnv cwd : String) :
    Except UploadErr String :=
  let cleanedTargetUserPath := goClean targetDirUserPath
  let pfx := cleanPfx pathPfxEnv
  if cleanedTargetUserPath == "" && pfx == "" then
    Except.error UploadErr.emptyTarget
  else if cleanedTargetUserPath == "." && pfx == "" then
    Except.error UploadErr.dotTarget
  else if strHasPfx cleanedTargetUserPath "/.." ||
      strHasPfx cleanedTargetUserPath "../" || cleanedTargetUserPath == ".." then
    Except.error UploadErr.traversalTarget
  else
    match (if pfx != "" then
             let absPfx := goAbs cwd pfx
             if goIsAbs cleanedTargetUserPath then
               let absT := goAbs cwd cleanedTargetUserPath
               if !(strHasPfx absT absPfx) then Except.error UploadErr.absOutside
               else Except.ok absT
             else if cleanedTargetUserPath == "" || cleanedTargetUserPath == "." then
               Except.ok absPfx
             else Except.ok (goJoin absPfx cleanedTargetUserPath)
           else Except.ok (goAbs cwd cleanedTargetUserPath)) with
    | Except.error e => Except.error e
    | Except.ok abs0 =>
      let absTarget := goClean abs0
      match (if pfx != "" then
               match fsGet fs (goAbs cwd pfx) with
               | none => some UploadErr.pfxNotFound
               | some (Node.file _) => some UploadErr.pfxNotDir
               | some Node.dir => none
             else none) with
      | some e => Except.error e
      | none =>
        let effectiveBaseDir :=
          if pfx != "" then goAbs cwd pfx
          else if goIsAbs targetDirUserPath then absTarget else cwd
        match goRel effectiveBaseDir absTarget with
        | none => Except.error UploadErr.relErr
        | some relPath =>
          if strHasPfx relPath ".." || relPath == ".." then
            Except.error UploadErr.scopeTraversal
          else Except.ok absTarget

/-- The PreparingTarget phase of `UploadFile` (file_service.go lines
203-212): in replace mode (PUT) recursively delete the target directory
(absence is not an error), then ensure it exists. -/
def uploadPrep (fs : FS) (absTarget : String) (isPutRequest : Bool) :
    FS × Option UploadErr :=
  let fs1 := if isPutRequest then removeAll fs absTarget else fs
  match mkdirAll fs1 absTarget with
  | Except.error _ => (fs1, some UploadErr.mkdirFail)
  | Except.ok fs2 => (fs2, none)

/-- The Dispatching phase of `UploadFile` (file_service.go lines 214-306):
classify by suffix and run the gzip-tar / tar / single-gzip / plain-copy
branch. -/
def uploadDispatch (fs2 : FS) (stream : InStream)
    (absTarget fileName : String) : FS × Except UploadErr String :=
  match classifyUpload fileName with
  | UploadKind.gzipTar =>
    if !stream.gzipOk then (fs2, Except.error UploadErr.gzipHeaderErr)
    else
      match extractTar fs2 stream.gzTarEntries stream.gzTarReadErr
          absTarget fileName with
      | (fs3, some e) => (fs3, Except.error (UploadErr.extractFail e))
      | (fs3, none) => (fs3, Except.ok absTarget)
  | UploadKind.plainTar =>
    match extractTar fs2 stream.tarEntries stream.tarReadErr
        absTarget fileName with
    | (fs3, some e) => (fs3, Except.error (UploadErr.extractFail e))
    | (fs3, none) => (fs3, Except.ok absTarget)
  | UploadKind.singleGz =>
    if !stream.gzipOk then (fs2, Except.error UploadErr.gzipHeaderErr)
    else
      let tfn0 := strTrimSfx fileName ".gz"
      let tfn := if tfn0 == "" then "gzipped_file" else tfn0
      let absFinal := goJoin absTarget (goClean tfn)
      if !(strHasPfx absFinal (absTarget ++ "/")) && absFinal != absTarget then
        (fs2, Except.error UploadErr.fileTraversal)
      else
        match mkdirAll fs2 (goDir absFinal) with
        | Except.error _ => (fs2, Except.error UploadErr.mkdirFail)
        | Except.ok fs3 =>
          match stream.gzBytes with
          | none =>
            match writeFile fs3 absFinal [] with
            | Except.error _ => (fs3, Except.error UploadErr.createFail)
            | Except.ok fs4 =>
              (removeFile fs4 absFinal, Except.error UploadErr.copyFail)
          | some bytes =>
            match writeFile fs3 absFinal bytes with
            | Except.error _ => (fs3, Except.error UploadErr.createFail)
            | Except.ok fs4 => (fs4, Except.ok absFinal)
  | UploadKind.plainFile =>
    let cleanedFileName := goClean fileName
    if strHasPfx cleanedFileName "/" || strHasPfx cleanedFileName ".." then
      (fs2, Except.error UploadErr.fileNameInvalid)
    else
      let absFinal := goJoin absTarget cleanedFileName
      if !(strHasPfx absFinal (absTarget ++ "/")) && absFinal != absTarget then
        (fs2, Except.error UploadErr.fileTraversal)
      else
        match mkdirAll fs2 (goDir absFinal) with
        | Except.error _ => (fs2, Except.error UploadErr.mkdirFail)
        | Except.ok fs3 =>
          match writeFile fs3 absFinal stream.rawBytes with
          | Except.error _ => (fs3, Except.error UploadErr.createFail)
          | Except.ok fs4 => (fs4, Except.ok absFinal)

/-- `UploadFile` (file_service.go lines 116-309).  `cwd` is the process
working directory (`os.Getwd`).  Returns the filesystem after the call and
either the final materialized path or the first error.  The three phases
run in the source's order: validation touches no state, the target is
prepared (deleted in replace mode, then created) before the payload is
read, and only then does the suffix dispatch consume the stream. -/
def UploadFile (fs : FS) (stream : InStream)
    (targetDirUserPath fileName pathPfxEnv : String)
    (isPutRequest : Bool) (cwd : String) : FS × Except UploadErr String :=
  match uploadValidate fs targetDirUserPath pathPfxEnv cwd with
  | Except.error e => (fs, Except.error e)
  | Except.ok absTarget =>
    match uploadPrep fs absTarget isPutRequest with
    | (fs1, some e) => (fs1, Except.error e)
    | (fs1, none) => uploadDispatch fs1 stream absTarget fileName

/-! ## Path resolution (`ResolveAndValidatePath` in src/service/path_utils.go)

`stat` models `os.Stat` on the prefix: `none` is "does not exist",
`some true` an existing directory, `some false` an existing non-directory.
`cwd` is the process working directory. -/

/-- Errors of `ResolveAndValidatePath`, one per distinct error return. -/
inductive ResolveErr
  | forbiddenTraversal
  | forbiddenAbsOutside
  | pfxNotFound
  | pfxNotDir
  | relErr
  | forbiddenOutsidePfx
  | forbiddenOutsideCwd
deriving DecidableEq, Repr

/-- Forbidden category of resolver errors (traversal / outside base). -/
def ResolveErr.isForbidden : ResolveErr → Bool
  | ResolveErr.forbiddenTraversal => true
  | ResolveErr.forbiddenAbsOutside => true
  | ResolveErr.forbiddenOutsidePfx => true
  | ResolveErr.forbiddenOutsideCwd => true
  | _ => false

/-- The effective query sub-directory (path_utils.go lines 25-38): with an
active prefix, "/" means the prefix root, and an absolute path that starts
with the prefix is made relative to it.  The display-path computation
(lines 113-125) repeats this computation verbatim, so it is shared here. -/
def effectiveSubOf (raw env : String) : String :=
  let pfx := cleanPfx env
  if pfx != "" then
    if raw == "/" then ""
    else if goIsAbs raw && strHasPfx raw pfx then
      match goRel pfx raw with
      | some rel => rel
      | none => raw
    else raw
  else raw

/-- The absolute target directory the resolver computes (path_utils.go
lines 51-81): clean the effective subpath, join it to the base directory
(the prefix when active, "." otherwise), clean, and make absolute. -/
def resolveTargetOf (cwd raw env : String) : String :=
  let pfx := cleanPfx env
  let t0 := goClean (effectiveSubOf raw env)
  let t := if t0 == "" || t0 == "." || t0 == "/" then "." else t0
  let base := if pfx != "" then pfx else "."
  goAbs cwd (goClean (goJoin base t))

/-- The absolute effective base directory the containment check compares
against (path_utils.go lines 83-104): the absolute prefix when active, the
absolute working directory otherwise. -/
def resolveBaseOf (cwd env : String) : String :=
  let pfx := cleanPfx env
  if pfx != "" then goAbs cwd pfx else goAbs cwd cwd

/-- The display-path normalization (path_utils.go lines 127-146): empty and
"." collapse to "/", other values are cleaned and given a leading slash,
and a trailing slash is trimmed from any non-root result. -/
def normalizeDisplay (tempDisplayPath : String) : String :=
  let d0 :=
    if tempDisplayPath == "" || tempDisplayPath == "." then "/"
    else
      let c := goClean tempDisplayPath
      if c == "." then "/"
      else if !(strHasPfx c "/") then "/" ++ c else c
  if d0.length > 1 && strEndsSlash d0 then strTrimRightSlash d0 else d0

/-- The client-visible display path (path_utils.go lines 113-146): the
prefix-stripped request, normalized. -/
def displayOf (raw env : String) : String :=
  normalizeDisplay (effectiveSubOf raw env)

/-- `ResolveAndValidatePath` (path_utils.go lines 18-149): preliminary
traversal gate on the raw request, prefix existence check, computation of
the absolute target, the authoritative relative-path containment check
against the effective base, and the display path. -/
def ResolveAndValidatePath (stat : String → Option Bool) (cwd : String)
    (rawQuerySubDir pathPfxEnv : String) :
    Except ResolveErr (String × String) :=
  let pfx := cleanPfx pathPfxEnv
  let prelim := goClean rawQuerySubDir
  if pfx != "" && strHasPfx prelim ".." then
    Except.error ResolveErr.forbiddenTraversal
  else if pfx != "" &&
      (goIsAbs rawQuerySubDir && !(strHasPfx rawQuerySubDir pfx) &&
       rawQuerySubDir != "/") then
    Except.error ResolveErr.forbiddenAbsOutside
  else
    match (if pfx != "" then
             match stat pfx with
             | none => some ResolveErr.pfxNotFound
             | some false => some ResolveErr.pfxNotDir
             | some true => none
           else none) with
    | some e => Except.error e
    | none =>
      let absTargetDir := resolveTargetOf cwd rawQuerySubDir pathPfxEnv
      match goRel (resolveBaseOf cwd pathPfxEnv) absTargetDir with
      | none => Except.error ResolveErr.relErr
      | some relPath =>
        if strHasPfx relPath ".." || relPath == ".." then
          Except.error (if pfx != "" then ResolveErr.forbiddenOutsidePfx
                        else ResolveErr.forbiddenOutsideCwd)
        else Except.ok (absTargetDir, displayOf rawQuerySubDir pathPfxEnv)

/-! ## Size formatting (`formatFileSizeService` in src/service/file_service.go) -/

/-- The unit loop of `formatFileSizeService` (lines 27-31): starting from
`n = size / 1024`, repeatedly divide by 1024, scaling `div` and counting
`exp`, while `n >= 1024`.  Fuelled: the loop strictly shrinks `n`, so fuel
`n` always suffices. -/
def sizeLoop : Nat → Nat → Nat → Nat → Nat × Nat
  | 0, _, div, exp => (div, exp)
  | f + 1, n, div, exp =>
    if n ≥ 1024 then sizeLoop f (n / 1024) (div * 1024) (exp + 1)
    else (div, exp)

/-- `fmt.Sprintf "%.1f"` of `size / div`, modelled with exact rational
rounding (half to even) to one decimal digit; this coincides with the
float64 computation on every value the claims mention (where the quotient
is exact). -/
def fmtFrac (size div : Nat) : String :=
  let num := size * 10
  let q := num / div
  let r := num % div
  let rounded :=
    if 2 * r > div then q + 1
    else if 2 * r < div then q
    else if q % 2 = 0 then q else q + 1
  toString (rounded / 10) ++ "." ++ toString (rounded % 10)

/-- `formatFileSizeService` (file_service.go lines 22-33): byte counts
below 1024 are rendered as "<n> B"; larger sizes with one decimal and a
binary unit letter from "KMGTPE". -/
def formatFileSizeService (size : Int) : String :=
  if size < 1024 then toString size ++ " B"
  else
    let n0 := (size / 1024).toNat
    let p := sizeLoop n0 n0 1024 0
    fmtFrac size.toNat p.1 ++ " " ++
      String.mk [(['K', 'M', 'G', 'T', 'P', 'E']).getD p.2 'K'] ++ "iB"


/-! ## Specification-side definitions -/

/-- Well-formedness of segments produced by `cleanStack`: nonempty, not
".", and separator-free. -/
def SegWF (s : Seg) : Prop := s ≠ [] ∧ s ≠ ['.'] ∧ '/' ∉ s

/-- The specification-side containment notion: `t` equals the base or lies
strictly below it (its string extends the base with a separator). -/
def isDescendant (base t : String) : Prop :=
  t = base ∨ strHasPfx t (if base = "/" then "/" else base ++ "/") = true

/-- A concrete prefix-stat function for witnesses: only "/data" exists and
is a directory. -/
def demoStat : String → Option Bool :=
  fun p => if p == "/data" then some true else none

/-! ## Generic list and filesystem lemmas -/

lemma find?_filter_congr {α : Type} (l : List α) (f g : α → Bool)
    (h : ∀ x, g x = true → f x = true) : (l.filter f).find? g = l.find? g := by
  induction l with
  | nil => rfl
  | cons a t ih =>
    cases hg : g a with
    | true =>
      have hf := h a hg
      simp [List.filter_cons, hf, List.find?_cons, hg]
    | false =>
      cases hf : f a with
      | true => simp [List.filter_cons, hf, List.find?_cons, hg, ih]
      | false => simp [List.filter_cons, hf, List.find?_cons, hg, ih]

lemma find?_filter_none {α : Type} (l : List α) (f g : α → Bool)
    (h : ∀ x, g x = true → f x = false) : (l.filter f).find? g = none := by
  induction l with
  | nil => rfl
  | cons a t ih =>
    cases hf : f a with
    | true =>
      have hg : g a = false := by
        cases hga : g a with
        | true => rw [h a hga] at hf; cases hf
        | false => rfl
      simp [List.filter_cons, hf, List.find?_cons, hg, ih]
    | false => simp [List.filter_cons, hf, ih]

lemma fsGet_setNode_self (fs : FS) (p : String) (n : Node) (hp : p ≠ "/") :
    fsGet (setNode fs p n) p = some n := by
  simp [fsGet, setNode, hp, List.find?_cons]

lemma fsGet_setNode_ne (fs : FS) (p : String) (n : Node) (q : String)
    (hq : q ≠ p) : fsGet (setNode fs p n) q = fsGet fs q := by
  by_cases hroot : q = "/"
  · simp [fsGet, hroot]
  · simp only [fsGet, setNode, if_neg hroot]
    rw [List.find?_cons]
    have : (p == q) = false := by
      simp [Ne.symm hq]
    simp only [this]
    rw [find?_filter_congr]
    intro x hx
    have hxq : x.1 = q := by simpa using hx
    simp [hxq]
    exact hq

lemma fsGet_removeAll_gone (fs : FS) (p q : String)
    (h : (q == p || strHasPfx q (p ++ "/")) = true) (hroot : q ≠ "/") :
    fsGet (removeAll fs p) q = none := by
  simp only [fsGet, removeAll, if_neg hroot]
  rw [find?_filter_none]
  · rfl
  · intro x hx
    have hxq : x.1 = q := by simpa using hx
    simp [hxq, h]

lemma fsGet_removeAll_other (fs : FS) (p q : String)
    (h : (q == p || strHasPfx q (p ++ "/")) = false) :
    fsGet (removeAll fs p) q = fsGet fs q := by
  by_cases hroot : q = "/"
  · simp [fsGet, hroot]
  · simp only [fsGet, removeAll, if_neg hroot]
    rw [find?_filter_congr]
    intro x hx
    have hxq : x.1 = q := by simpa using hx
    simp [hxq, h]

lemma mkdirAll_of_dir (fs : FS) (p : String) (h : fsGet fs p = some Node.dir) :
    mkdirAll fs p = Except.ok fs := by
  simp [mkdirAll, mkdirAllF, h]

lemma mkdirAllF_succ (f : Nat) (fs : FS) (p : String) :
    mkdirAllF (f + 1) fs p =
      (match fsGet fs p with
       | some Node.dir => Except.ok fs
       | some (Node.file _) => Except.error ()
       | none =>
         let rest := p.data.reverse.dropWhile (fun c => c != '/')
         if rest.length > 1 then
           match mkdirAllF f fs ⟨(rest.drop 1).reverse⟩ with
           | Except.error e => Except.error e
           | Except.ok fs1 => mkdir fs1 p
         else mkdir fs p) := rfl

lemma mkdirAll_dataApp (fs : FS) (h1 : fsGet fs "/data/app" = none)
    (h2 : fsGet fs "/data" = some Node.dir) :
    mkdirAll fs "/data/app" = Except.ok (setNode fs "/data/app" Node.dir) := by
  show mkdirAllF ("/data/app".data.length + 1) fs "/data/app" = _
  rw [mkdirAllF_succ, h1]
  show (let rest := List.dropWhile (fun c => c != '/') "/data/app".data.reverse
        if rest.length > 1 then
          match mkdirAllF "/data/app".data.length fs ⟨(List.drop 1 rest).reverse⟩ with
          | Except.error e => Except.error e
          | Except.ok fs1 => mkdir fs1 "/data/app"
        else mkdir fs "/data/app") = _
  rw [show List.dropWhile (fun c => c != '/') "/data/app".data.reverse =
        ['/', 'a', 't', 'a', 'd', '/'] from by decide]
  rw [show ("/data/app".data.length) = 8 + 1 from by decide]
  rw [if_pos (by decide : (['/', 'a', 't', 'a', 'd', '/'] : List Char).length > 1)]
  rw [show (⟨(List.drop 1 ['/', 'a', 't', 'a', 'd', '/']).reverse⟩ : String) = "/data"
        from by decide]
  rw [mkdirAllF_succ, h2]
  show mkdir fs "/data/app" = _
  rw [mkdir, h1]
  rw [show goDir "/data/app" = "/data" from by decide, h2]
  rw [if_pos rfl]

/-! ## Path algebra lemmas -/

lemma foldl_inv {α β : Type} (f : β → α → β) (P : β → Prop) (Q : α → Prop)
    (l : List α) (st : β) (hst : P st) (hl : ∀ a ∈ l, Q a)
    (hf : ∀ b a, P b → Q a → P (f b a)) : P (l.foldl f st) := by
  induction l generalizing st with
  | nil => exact hst
  | cons a t ih =>
    exact ih (f st a) (hf st a hst (hl a (List.mem_cons_self a t)))
      (fun x hx => hl x (List.mem_cons_of_mem a hx))

lemma splitSeg_ne_nil (l : List Char) : splitSeg l ≠ [] := by
  cases l with
  | nil => simp [splitSeg]
  | cons c rest =>
    simp only [splitSeg]
    by_cases h : c = '/'
    · simp [h]
    · simp only [if_neg h]
      cases hs : splitSeg rest with
      | nil => simp
      | cons s ss => simp

lemma mem_splitSeg_no_slash (l : List Char) (s : List Char)
    (hs : s ∈ splitSeg l) : '/' ∉ s := by
  induction l generalizing s with
  | nil =>
    simp [splitSeg] at hs
    simp [hs]
  | cons c rest ih =>
    simp only [splitSeg] at hs
    by_cases h : c = '/'
    · rw [if_pos h] at hs
      rcases List.mem_cons.mp hs with h1 | h1
      · simp [h1]
      · exact ih s h1
    · rw [if_neg h] at hs
      cases he : splitSeg rest with
      | nil => exact absurd he (splitSeg_ne_nil rest)
      | cons s0 ss =>
        rw [he] at hs
        rcases List.mem_cons.mp hs with h1 | h1
        · subst h1
          intro hc
          rcases List.mem_cons.mp hc with h2 | h2
          · exact h h2.symm
          · exact ih s0 (he ▸ List.mem_cons_self s0 ss) h2
        · exact ih s (he ▸ List.mem_cons_of_mem s0 h1)

lemma clStep_wf (r : Bool) (st : List Seg) (s : Seg)
    (hst : ∀ x ∈ st, SegWF x) (hs : '/' ∉ s) :
    ∀ x ∈ clStep r st s, SegWF x := by
  intro x hx
  simp only [clStep] at hx
  by_cases h1 : s = [] ∨ s = ['.']
  · rw [if_pos h1] at hx
    exact hst x hx
  rw [if_neg h1] at hx
  push_neg at h1
  by_cases h2 : s = ['.', '.']
  · rw [if_pos h2] at hx
    by_cases h3 : st ≠ [] ∧ st.getLast? ≠ some ['.', '.']
    · rw [if_pos h3] at hx
      exact hst x (List.dropLast_subset st hx)
    · rw [if_neg h3] at hx
      by_cases h4 : r = true
      · rw [if_pos h4] at hx
        exact hst x hx
      · rw [if_neg h4] at hx
        rcases List.mem_append.mp hx with h5 | h5
        · exact hst x h5
        · simp at h5
          subst h5
          rw [h2]
          refine ⟨by simp, by simp, by simp⟩
  · rw [if_neg h2] at hx
    rcases List.mem_append.mp hx with h5 | h5
    · exact hst x h5
    · simp at h5
      subst h5
      exact ⟨h1.1, h1.2, hs⟩

lemma cleanStack_wf (r : Bool) (l : List Char) :
    ∀ x ∈ cleanStack r (splitSeg l), SegWF x := by
  refine foldl_inv (clStep r) (fun st => ∀ x ∈ st, SegWF x) (fun s => '/' ∉ s)
    (splitSeg l) [] (by simp) (fun s hs => mem_splitSeg_no_slash l s hs) ?_
  intro st s hst hs
  exact clStep_wf r st s hst hs

lemma clStep_no_dotdot (st : List Seg) (s : Seg)
    (hst : ['.', '.'] ∉ st) : ['.', '.'] ∉ clStep true st s := by
  simp only [clStep]
  by_cases h1 : s = [] ∨ s = ['.']
  · rw [if_pos h1]; exact hst
  rw [if_neg h1]
  by_cases h2 : s = ['.', '.']
  · rw [if_pos h2]
    by_cases h3 : st ≠ [] ∧ st.getLast? ≠ some ['.', '.']
    · rw [if_pos h3]
      intro hx
      exact hst (List.dropLast_subset st hx)
    · rw [if_neg h3, if_pos trivial]
      exact hst
  · rw [if_neg h2]
    intro hx
    rcases List.mem_append.mp hx with h5 | h5
    · exact hst h5
    · simp at h5
      exact h2 h5.symm

lemma cleanStack_no_dotdot (l : List Char) :
    ['.', '.'] ∉ cleanStack true (splitSeg l) := by
  refine foldl_inv (clStep true) (fun st => ['.', '.'] ∉ st) (fun _ => True)
    (splitSeg l) [] (by simp) (fun _ _ => trivial) ?_
  intro st s hst _
  exact clStep_no_dotdot st s hst

lemma joinSegs_cons (s : Seg) (rest : List Seg) (h : rest ≠ []) :
    joinSegs (s :: rest) = s ++ '/' :: joinSegs rest := by
  cases rest with
  | nil => exact absurd rfl h
  | cons a t => rfl

lemma joinSegs_ne_nil (st : List Seg) (h : st ≠ [])
    (hwf : ∀ x ∈ st, SegWF x) : joinSegs st ≠ [] := by
  cases st with
  | nil => exact absurd rfl h
  | cons s rest =>
    cases rest with
    | nil =>
      exact (hwf s (by simp)).1
    | cons a t =>
      rw [joinSegs_cons s (a :: t) (by simp)]
      simp

lemma joinSegs_append (as bs : List Seg) (ha : as ≠ []) (hb : bs ≠ []) :
    joinSegs (as ++ bs) = joinSegs as ++ '/' :: joinSegs bs := by
  induction as with
  | nil => exact absurd rfl ha
  | cons s t ih =>
    cases t with
    | nil =>
      rw [List.singleton_append, joinSegs_cons s bs hb]
      rfl
    | cons a u =>
      rw [List.cons_append, joinSegs_cons s ((a :: u) ++ bs) (by simp),
        joinSegs_cons s (a :: u) (by simp), ih (by simp)]
      simp

lemma head?_joinSegs_ne_slash (st : List Seg) (h : st ≠ [])
    (hwf : ∀ x ∈ st, SegWF x) : (joinSegs st).head? ≠ some '/' := by
  cases st with
  | nil => exact absurd rfl h
  | cons s rest =>
    have hs : SegWF s := hwf s (by simp)
    cases rest with
    | nil =>
      intro hc
      exact hs.2.2 (List.mem_of_mem_head? hc)
    | cons a t =>
      rw [joinSegs_cons s (a :: t) (by simp)]
      cases s with
      | nil => exact absurd rfl hs.1
      | cons x xs =>
        intro hc
        simp at hc
        exact hs.2.2 (by simp [hc])

lemma getLast?_joinSegs_ne_slash (st : List Seg) (h : st ≠ [])
    (hwf : ∀ x ∈ st, SegWF x) : (joinSegs st).getLast? ≠ some '/' := by
  induction st with
  | nil => exact absurd rfl h
  | cons s rest ih =>
    have hs : SegWF s := hwf s (by simp)
    cases rest with
    | nil =>
      intro hc
      exact hs.2.2 (List.mem_of_mem_getLast? hc)
    | cons a t =>
      have hwf' : ∀ x ∈ a :: t, SegWF x := fun x hx => hwf x (by simp [hx])
      have hJne : joinSegs (a :: t) ≠ [] := joinSegs_ne_nil _ (by simp) hwf'
      have hJ := ih (by simp) hwf'
      rw [joinSegs_cons s (a :: t) (by simp), List.getLast?_append]
      cases hc : (joinSegs (a :: t)).getLast? with
      | none => exact absurd (List.getLast?_eq_none_iff.mp hc) hJne
      | some c =>
        rw [List.getLast?_cons, hc]
        intro hcontra
        simp at hcontra
        rw [hcontra] at hc
        exact hJ hc

lemma splitSeg_no_slash_id (s : Seg) (h : '/' ∉ s) : splitSeg s = [s] := by
  induction s with
  | nil => rfl
  | cons c cs ih =>
    have hc : c ≠ '/' := fun hcc => h (by simp [hcc])
    have ih' := ih (fun hm => h (by simp [hm]))
    simp only [splitSeg, if_neg hc, ih']

lemma splitSeg_append_slash (s : Seg) (l : List Char) (h : '/' ∉ s) :
    splitSeg (s ++ '/' :: l) = s :: splitSeg l := by
  induction s with
  | nil => simp [splitSeg]
  | cons c cs ih =>
    have hc : c ≠ '/' := fun hcc => h (by simp [hcc])
    have ih' := ih (fun hm => h (by simp [hm]))
    simp only [List.cons_append, splitSeg, if_neg hc]
    rw [show cs.append ('/' :: l) = cs ++ '/' :: l from rfl, ih']

lemma splitSeg_joinSegs (st : List Seg) (h : st ≠ [])
    (hwf : ∀ x ∈ st, SegWF x) : splitSeg (joinSegs st) = st := by
  induction st with
  | nil => exact absurd rfl h
  | cons s rest ih =>
    have hs : SegWF s := hwf s (by simp)
    cases rest with
    | nil => exact splitSeg_no_slash_id s hs.2.2
    | cons a t =>
      rw [joinSegs_cons s (a :: t) (by simp),
        splitSeg_append_slash s _ hs.2.2,
        ih (by simp) (fun x hx => hwf x (by simp [hx]))]

lemma clStep_plain (r : Bool) (acc : List Seg) (s : Seg)
    (h1 : s ≠ []) (h2 : s ≠ ['.']) (h3 : s ≠ ['.', '.']) :
    clStep r acc s = acc ++ [s] := by
  simp only [clStep, if_neg (by simp [h1, h2] : ¬(s = [] ∨ s = ['.'])), if_neg h3]

lemma foldl_clStep_id (r : Bool) (st : List Seg) (acc : List Seg)
    (hwf : ∀ x ∈ st, x ≠ [] ∧ x ≠ ['.'] ∧ x ≠ ['.', '.']) :
    List.foldl (clStep r) acc st = acc ++ st := by
  induction st generalizing acc with
  | nil => simp
  | cons s t ih =>
    have hs := hwf s (by simp)
    rw [List.foldl_cons, clStep_plain r acc s hs.1 hs.2.1 hs.2.2,
      ih (acc ++ [s]) (fun x hx => hwf x (by simp [hx]))]
    simp

lemma cleanStack_clean_rooted (st : List Seg) (hwf : ∀ x ∈ st, SegWF x)
    (hnd : ['.', '.'] ∉ st) : cleanStack true ([] :: st) = st := by
  have h0 : clStep true [] [] = [] := rfl
  simp only [cleanStack, List.foldl_cons, h0]
  rw [foldl_clStep_id true st []]
  · simp
  · intro x hx
    have hw := hwf x hx
    refine ⟨hw.1, hw.2.1, ?_⟩
    intro hc
    rw [hc] at hx
    exact hnd hx

lemma cleanChars_rooted (l : List Char) (h : l.head? = some '/') :
    cleanChars l = '/' :: joinSegs (cleanStack true (splitSeg l)) := by
  have hne : l ≠ [] := by
    intro hc
    rw [hc] at h
    simp at h
  simp only [cleanChars, if_neg hne, if_pos h]

lemma cleanChars_head_rooted (l : List Char) (h : l.head? = some '/') :
    (cleanChars l).head? = some '/' := by
  rw [cleanChars_rooted l h]
  rfl

lemma cleanStack_splitSeg_cleanChars (l : List Char) (h : l.head? = some '/') :
    cleanStack true (splitSeg (cleanChars l)) = cleanStack true (splitSeg l) := by
  rw [cleanChars_rooted l h]
  by_cases hst : cleanStack true (splitSeg l) = []
  · rw [hst]
    rfl
  · rw [show splitSeg ('/' :: joinSegs (cleanStack true (splitSeg l))) =
        [] :: splitSeg (joinSegs (cleanStack true (splitSeg l))) from by
          simp [splitSeg]]
    rw [splitSeg_joinSegs _ hst (cleanStack_wf true l)]
    exact cleanStack_clean_rooted _ (cleanStack_wf true l) (cleanStack_no_dotdot l)

lemma cleanChars_rooted_idem (l : List Char) (h : l.head? = some '/') :
    cleanChars (cleanChars l) = cleanChars l := by
  have h2 : (cleanChars l).head? = some '/' := cleanChars_head_rooted l h
  rw [cleanChars_rooted (cleanChars l) h2, cleanStack_splitSeg_cleanChars l h,
    cleanChars_rooted l h]

lemma cleanChars_head_not_rooted (l : List Char) (h : l.head? ≠ some '/') :
    (cleanChars l).head? ≠ some '/' := by
  by_cases hne : l = []
  · subst hne
    simp [cleanChars]
  · simp only [cleanChars, if_neg hne, if_neg h]
    by_cases hst : cleanStack false (splitSeg l) = []
    · rw [if_pos hst]
      simp
    · rw [if_neg hst]
      exact head?_joinSegs_ne_slash _ hst (cleanStack_wf false l)


lemma strHasPfx_slash_iff (s : String) :
    strHasPfx s "/" = true ↔ s.data.head? = some '/' := by
  cases hd : s.data with
  | nil => simp [strHasPfx, hd, List.isPrefixOf]
  | cons c t =>
    simp only [strHasPfx, hd, show ("/" : String).data = ['/'] from rfl]
    simp [List.isPrefixOf]
    exact eq_comm

lemma goIsAbs_iff (p : String) : goIsAbs p = true ↔ p.data.head? = some '/' :=
  strHasPfx_slash_iff p

lemma string_eq_of_data (a b : String) (h : a.data = b.data) : a = b := by
  cases a
  cases b
  simp at h
  rw [h]

lemma goAbs_head (cwd p : String) (hc : cwd.data.head? = some '/') :
    (goAbs cwd p).data.head? = some '/' := by
  have hcw : cwd ≠ "" := by
    intro h
    rw [h] at hc
    simp at hc
  simp only [goAbs, goJoin, goClean]
  by_cases ha : goIsAbs p = true
  · rw [if_pos ha]
    exact cleanChars_head_rooted p.data ((goIsAbs_iff p).mp ha)
  · rw [if_neg ha, if_neg hcw]
    apply cleanChars_head_rooted
    rw [String.data_append, String.data_append]
    cases hd : cwd.data with
    | nil => rw [hd] at hc; simp at hc
    | cons c t =>
      rw [hd] at hc
      simp at hc
      simp [hc]

lemma goAbs_clean (cwd p : String) (hc : cwd.data.head? = some '/') :
    cleanChars (goAbs cwd p).data = (goAbs cwd p).data := by
  have hcw : cwd ≠ "" := by
    intro h
    rw [h] at hc
    simp at hc
  simp only [goAbs, goJoin, goClean]
  by_cases ha : goIsAbs p = true
  · rw [if_pos ha]
    exact cleanChars_rooted_idem p.data ((goIsAbs_iff p).mp ha)
  · rw [if_neg ha, if_neg hcw]
    apply cleanChars_rooted_idem
    rw [String.data_append, String.data_append]
    cases hd : cwd.data with
    | nil => rw [hd] at hc; simp at hc
    | cons c t =>
      rw [hd] at hc
      simp at hc
      simp [hc]

lemma dropCommon_fst_mem (a : List Seg) (x : Seg) :
    ∀ (b : List Seg), (dropCommon a b).1.head? = some x → x ∈ a := by
  induction a with
  | nil =>
    intro b h
    simp [dropCommon] at h
  | cons p a' ih =>
    intro b h
    cases b with
    | nil =>
      simp [dropCommon] at h
      simp [h]
    | cons q b' =>
      simp only [dropCommon] at h
      by_cases hpq : p = q
      · rw [if_pos hpq] at h
        exact List.mem_cons_of_mem p (ih b' h)
      · rw [if_neg hpq] at h
        simp at h
        simp [h]

lemma dropCommon_nil_fst (a : List Seg) :
    ∀ (b : List Seg), (dropCommon a b).1 = [] → b = a ++ (dropCommon a b).2 := by
  induction a with
  | nil =>
    intro b _
    simp [dropCommon]
  | cons p a' ih =>
    intro b h
    cases b with
    | nil => simp [dropCommon] at h
    | cons q b' =>
      simp only [dropCommon] at h ⊢
      by_cases hpq : p = q
      · rw [if_pos hpq] at h ⊢
        subst hpq
        exact congrArg (List.cons p) (ih b' h)
      · rw [if_neg hpq] at h
        simp at h

lemma goRel_rooted_isSome (b t : String) (hb : b.data.head? = some '/')
    (ht : t.data.head? = some '/') : ∃ r, goRel b t = some r := by
  have hbr : goIsAbs b = true := (goIsAbs_iff b).mpr hb
  have htr : goIsAbs t = true := (goIsAbs_iff t).mpr ht
  simp only [goRel, hbr, htr]
  by_cases heq : cleanStack true (splitSeg b.data) = cleanStack true (splitSeg t.data)
  · rw [if_pos ⟨trivial, heq⟩]
    exact ⟨".", rfl⟩
  · rw [if_neg (fun hand => heq hand.2)]
    rw [if_neg (by simp : ¬(true ≠ true))]
    rw [if_neg (by simp : ¬(true = false ∧ cleanStack true (splitSeg t.data) = []))]
    rw [if_neg (fun hdd => cleanStack_no_dotdot b.data
      (dropCommon_fst_mem (cleanStack true (splitSeg b.data)) ['.', '.']
        (cleanStack true (splitSeg t.data)) hdd))]
    exact ⟨_, rfl⟩

lemma goRel_descendant (b t r : String)
    (hb : b.data.head? = some '/') (ht : t.data.head? = some '/')
    (hbc : cleanChars b.data = b.data) (htc : cleanChars t.data = t.data)
    (hrel : goRel b t = some r) (hnd : strHasPfx r ".." = false) :
    isDescendant b t := by
  have hbr : goIsAbs b = true := (goIsAbs_iff b).mpr hb
  have htr : goIsAbs t = true := (goIsAbs_iff t).mpr ht
  have hbform : b.data = '/' :: joinSegs (cleanStack true (splitSeg b.data)) := by
    conv_lhs => rw [← hbc, cleanChars_rooted b.data hb]
  have htform : t.data = '/' :: joinSegs (cleanStack true (splitSeg t.data)) := by
    conv_lhs => rw [← htc, cleanChars_rooted t.data ht]
  simp only [goRel, hbr, htr] at hrel
  by_cases heq : cleanStack true (splitSeg b.data) = cleanStack true (splitSeg t.data)
  · left
    apply string_eq_of_data
    rw [htform, hbform, heq]
  · rw [if_neg (fun hand => heq hand.2)] at hrel
    rw [if_neg (by simp : ¬(true ≠ true))] at hrel
    rw [if_neg (by simp : ¬(true = false ∧ cleanStack true (splitSeg t.data) = []))]
      at hrel
    cases hdc : dropCommon (cleanStack true (splitSeg b.data))
        (cleanStack true (splitSeg t.data)) with
    | mk brest trest =>
      rw [hdc] at hrel
      by_cases hdd : brest.head? = some ['.', '.']
      · rw [if_pos hdd] at hrel
        cases hrel
      · rw [if_neg hdd] at hrel
        have hr : r = ⟨joinSegs (List.replicate brest.length ['.', '.'] ++ trest)⟩ :=
          (Option.some_inj.mp hrel).symm
        cases brest with
        | cons s brest' =>
          exfalso
          have hpre : strHasPfx r ".." = true := by
            rw [hr]
            show (("..").data).isPrefixOf
              (joinSegs (List.replicate (s :: brest').length ['.', '.'] ++ trest)) = true
            rw [show ("..").data = ['.', '.'] from rfl]
            rw [List.length_cons, List.replicate_succ, List.cons_append]
            cases hrest : List.replicate brest'.length ['.', '.'] ++ trest with
            | nil =>
              simp [joinSegs, List.isPrefixOf]
            | cons y ys =>
              rw [joinSegs_cons ['.', '.'] (y :: ys) (by simp)]
              rw [ List.isPrefixOf_iff_prefix]
              exact ⟨'/' :: joinSegs (y :: ys), by simp⟩
          rw [hpre] at hnd
          cases hnd
        | nil =>
          have hts : cleanStack true (splitSeg t.data) =
              cleanStack true (splitSeg b.data) ++ trest := by
            have := dropCommon_nil_fst (cleanStack true (splitSeg b.data))
              (cleanStack true (splitSeg t.data)) (by rw [hdc])
            rw [hdc] at this
            exact this
          have htrest : trest ≠ [] := by
            intro hc
            rw [hc, List.append_nil] at hts
            exact heq hts.symm
          cases hbs : cleanStack true (splitSeg b.data) with
          | nil =>
            right
            have hbslash : b = "/" := by
              apply string_eq_of_data
              rw [hbform, hbs]
              rfl
            rw [if_pos hbslash]
            exact (strHasPfx_slash_iff t).mpr ht
          | cons s0 bs' =>
            right
            have hbne : b ≠ "/" := by
              intro hc
              have hdata : b.data = ['/'] := by rw [hc]
              have h2 : ('/' : Char) :: ([] : List Char) =
                  '/' :: joinSegs (cleanStack true (splitSeg b.data)) :=
                hdata.symm.trans hbform
              have h3 : joinSegs (cleanStack true (splitSeg b.data)) = [] :=
                (List.cons.inj h2).2.symm
              rw [hbs] at h3
              exact joinSegs_ne_nil (s0 :: bs') (by simp)
                (fun x hx => cleanStack_wf true b.data x (hbs ▸ hx)) h3
            rw [if_neg hbne]
            show ((b ++ "/").data).isPrefixOf t.data = true
            rw [String.data_append, show ("/" : String).data = ['/'] from rfl]
            rw [htform, hts, hbs]
            rw [joinSegs_append (s0 :: bs') trest (by simp) htrest]
            rw [ List.isPrefixOf_iff_prefix]
            refine ⟨joinSegs trest, ?_⟩
            rw [hbform, hbs]
            simp

lemma strHasPfx_dotslash_dot (r : String) (h : strHasPfx r "../" = true) :
    strHasPfx r ".." = true := by
  simp only [strHasPfx, List.isPrefixOf_iff_prefix] at h ⊢
  exact List.IsPrefix.trans (by decide) h

lemma resolveBaseOf_head (cwd env : String) (hcwd : cwd.data.head? = some '/') :
    (resolveBaseOf cwd env).data.head? = some '/' := by
  simp only [resolveBaseOf]
  by_cases hp : cleanPfx env != ""
  · rw [if_pos hp]
    exact goAbs_head cwd _ hcwd
  · rw [if_neg hp]
    exact goAbs_head cwd _ hcwd

lemma resolveBaseOf_clean (cwd env : String) (hcwd : cwd.data.head? = some '/') :
    cleanChars (resolveBaseOf cwd env).data = (resolveBaseOf cwd env).data := by
  simp only [resolveBaseOf]
  by_cases hp : cleanPfx env != ""
  · rw [if_pos hp]
    exact goAbs_clean cwd _ hcwd
  · rw [if_neg hp]
    exact goAbs_clean cwd _ hcwd

lemma resolveTargetOf_head (cwd raw env : String)
    (hcwd : cwd.data.head? = some '/') :
    (resolveTargetOf cwd raw env).data.head? = some '/' :=
  goAbs_head cwd _ hcwd

lemma resolveTargetOf_clean (cwd raw env : String)
    (hcwd : cwd.data.head? = some '/') :
    cleanChars (resolveTargetOf cwd raw env).data = (resolveTargetOf cwd raw env).data :=
  goAbs_clean cwd _ hcwd

/-! ## Display path lemmas -/

lemma getLast?_slash_join (st : List Seg) (hst : st ≠ [])
    (hwf : ∀ x ∈ st, SegWF x) :
    (('/' : Char) :: joinSegs st).getLast? ≠ some '/' := by
  have hJne : joinSegs st ≠ [] := joinSegs_ne_nil st hst hwf
  cases hJ : (joinSegs st).getLast? with
  | none => exact absurd (List.getLast?_eq_none_iff.mp hJ) hJne
  | some cc =>
    rw [List.getLast?_cons, hJ]
    intro hcontra
    simp at hcontra
    rw [hcontra] at hJ
    exact getLast?_joinSegs_ne_slash st hst hwf hJ

lemma normalize_trim_noop (d0 : String) (h : d0.data.getLast? ≠ some '/') :
    (if d0.length > 1 && strEndsSlash d0 then strTrimRightSlash d0 else d0) = d0 := by
  rw [if_neg]
  intro hc
  have h2 := (Bool.and_eq_true _ _).mp hc
  have h3 : d0.data.getLast? = some '/' := by
    have := h2.2
    simp only [strEndsSlash] at this
    exact beq_iff_eq.mp this
  exact h h3

lemma normalizeDisplay_props (x : String) :
    (normalizeDisplay x).data.head? = some '/' ∧
    ((normalizeDisplay x).data.getLast? = some '/' → normalizeDisplay x = "/") := by
  simp only [normalizeDisplay]
  by_cases h1 : (x == "" || x == ".") = true
  · rw [if_pos h1, show _ = ("/" : String) from if_neg (by decide)]
    exact ⟨rfl, fun _ => rfl⟩
  · rw [if_neg h1]
    by_cases hdot : (goClean x == ".") = true
    · rw [if_pos hdot, show _ = ("/" : String) from if_neg (by decide)]
      exact ⟨rfl, fun _ => rfl⟩
    · rw [if_neg hdot]
      by_cases hroot : x.data.head? = some '/'
      · have hcr : cleanChars x.data =
            '/' :: joinSegs (cleanStack true (splitSeg x.data)) :=
          cleanChars_rooted x.data hroot
        have hgd : (goClean x).data = cleanChars x.data := rfl
        have hpfx : strHasPfx (goClean x) "/" = true := by
          rw [strHasPfx_slash_iff, hgd, hcr]
          rfl
        rw [if_neg (by simp [hpfx] : ¬((!strHasPfx (goClean x) "/") = true))]
        by_cases hst : cleanStack true (splitSeg x.data) = []
        · have hslash : goClean x = "/" := by
            apply string_eq_of_data
            rw [hgd, hcr, hst]
            rfl
          rw [hslash, show _ = ("/" : String) from if_neg (by decide)]
          exact ⟨rfl, fun _ => rfl⟩
        · have hlast : (goClean x).data.getLast? ≠ some '/' := by
            rw [hgd, hcr]
            exact getLast?_slash_join _ hst (cleanStack_wf true x.data)
          rw [normalize_trim_noop _ hlast]
          refine ⟨?_, fun hcontra => absurd hcontra hlast⟩
          rw [hgd, hcr]
          rfl
      · have hcnr := cleanChars_head_not_rooted x.data hroot
        have hgd : (goClean x).data = cleanChars x.data := rfl
        have hpfx : strHasPfx (goClean x) "/" = false := by
          cases hb : strHasPfx (goClean x) "/" with
          | false => rfl
          | true =>
            have := (strHasPfx_slash_iff (goClean x)).mp hb
            rw [hgd] at this
            exact absurd this hcnr
        rw [if_pos (by simp [hpfx] : (!strHasPfx (goClean x) "/") = true)]
        have hne_dot : cleanChars x.data ≠ ['.'] := by
          intro hc
          have : goClean x = "." := string_eq_of_data _ _ (by rw [hgd, hc])
          rw [this] at hdot
          simp at hdot
        have hxe : x.data ≠ [] := by
          intro hc
          apply hne_dot
          simp [cleanChars, hc]
        have hform : cleanChars x.data =
            joinSegs (cleanStack false (splitSeg x.data)) ∧
            cleanStack false (splitSeg x.data) ≠ [] := by
          by_cases hstn : cleanStack false (splitSeg x.data) = []
          · exfalso
            apply hne_dot
            simp [cleanChars, hxe, hroot, hstn]
          · constructor
            · simp [cleanChars, hxe, hroot, hstn]
            · exact hstn
        have hdata : (("/" : String) ++ goClean x).data =
            '/' :: joinSegs (cleanStack false (splitSeg x.data)) := by
          rw [String.data_append, hgd, hform.1]
          rfl
        have hlast : (("/" : String) ++ goClean x).data.getLast? ≠ some '/' := by
          rw [hdata]
          exact getLast?_slash_join _ hform.2 (cleanStack_wf false x.data)
        rw [normalize_trim_noop _ hlast]
        refine ⟨?_, fun hcontra => absurd hcontra hlast⟩
        rw [hdata]
        rfl

lemma resolve_ok_display (stat : String → Option Bool)
    (cwd raw env t d : String)
    (hok : ResolveAndValidatePath stat cwd raw env = Except.ok (t, d)) :
    d = displayOf raw env := by
  simp only [ResolveAndValidatePath] at hok
  split at hok
  · exact Except.noConfusion hok
  split at hok
  · exact Except.noConfusion hok
  split at hok
  · exact Except.noConfusion hok
  split at hok
  · exact Except.noConfusion hok
  split at hok
  · exact Except.noConfusion hok
  have hpair := Except.ok.inj hok
  rw [Prod.ext_iff] at hpair
  exact hpair.2.symm

lemma effectiveSubOf_empty (env : String) : effectiveSubOf "" env = "" := by
  simp only [effectiveSubOf]
  by_cases hp : cleanPfx env != ""
  · rw [if_pos hp, if_neg (by decide : ¬((("" : String) == "/") = true)),
      if_neg (by simp [show goIsAbs "" = false from rfl] :
        ¬((goIsAbs "" && strHasPfx "" (cleanPfx env)) = true))]
  · rw [if_neg hp]

lemma effectiveSubOf_dot (env : String) : effectiveSubOf "." env = "." := by
  simp only [effectiveSubOf]
  by_cases hp : cleanPfx env != ""
  · rw [if_pos hp, if_neg (by decide : ¬((("." : String) == "/") = true)),
      if_neg (by simp [show goIsAbs "." = false from rfl] :
        ¬((goIsAbs "." && strHasPfx "." (cleanPfx env)) = true))]
  · rw [if_neg hp]

lemma cleanPfx_ne_slash (env : String) : cleanPfx env ≠ "/" := by
  simp only [cleanPfx]
  by_cases h1 : env != ""
  · rw [if_pos h1]
    by_cases h2 : (goClean env == "." || goClean env == "/") = true
    · rw [if_pos h2]
      decide
    · rw [if_neg h2]
      intro hc
      apply h2
      rw [hc]
      simp
  · rw [if_neg h1]
    decide

lemma strHasPfx_refl (s : String) : strHasPfx s s = true := by
  simp [strHasPfx, List.isPrefixOf_iff_prefix]

lemma goRel_self (p : String) : goRel p p = some "." := by
  simp [goRel]

lemma effectiveSubOf_pfx (env : String) (habs : goIsAbs (cleanPfx env) = true) :
    effectiveSubOf (cleanPfx env) env = "." := by
  have hp : cleanPfx env ≠ "" := by
    intro h
    rw [h] at habs
    exact absurd habs (by decide)
  simp only [effectiveSubOf]
  rw [if_pos (by simp [bne_iff_ne, hp] : (cleanPfx env != "") = true)]
  rw [if_neg (fun h => cleanPfx_ne_slash env (beq_iff_eq.mp h))]
  rw [if_pos (by simp [habs, strHasPfx_refl] :
    (goIsAbs (cleanPfx env) && strHasPfx (cleanPfx env) (cleanPfx env)) = true)]
  rw [goRel_self]

/-! ## Scenario lemmas for the upload claims -/

lemma extractStep_newtxt (fs2 : FS) (mode : Nat) (bytes : List Nat)
    (hdir : fsGet fs2 "/data/app" = some Node.dir)
    (hnew : fsGet fs2 "/data/app/new.txt" = none) :
    extractStep "/data/app" fs2 ⟨"new.txt", TarType.reg, mode, bytes⟩ =
      (setNode fs2 "/data/app/new.txt" (Node.file bytes), none) := by
  simp only [extractStep]
  rw [if_neg (by decide :
    ¬((goIsAbs (goClean "new.txt") || strHasPfx (goClean "new.txt") "../" ||
       goClean "new.txt" == "..") = true))]
  rw [show goJoin "/data/app" (goClean "new.txt") = "/data/app/new.txt" from by decide]
  rw [if_neg (by decide :
    ¬((!(strHasPfx "/data/app/new.txt" ("/data/app" ++ "/")) &&
       "/data/app/new.txt" != "/data/app") = true))]
  rw [show goDir "/data/app/new.txt" = "/data/app" from by decide]
  rw [mkdirAll_of_dir fs2 "/data/app" hdir]
  simp only [writeFile, hnew]
  rw [show goDir "/data/app/new.txt" = "/data/app" from by decide]
  rw [hdir, if_pos rfl]

lemma uploadPrep_replace (fs : FS)
    (h2 : fsGet fs "/data" = some Node.dir) :
    uploadPrep fs "/data/app" true =
      (setNode (removeAll fs "/data/app") "/data/app" Node.dir, none) := by
  simp only [uploadPrep]
  simp only [if_true]
  rw [mkdirAll_dataApp]
  · exact fsGet_removeAll_gone fs "/data/app" "/data/app" (by decide) (by decide)
  · rw [fsGet_removeAll_other fs "/data/app" "/data" (by decide)]
    exact h2

lemma uploadPrep_merge (fs : FS)
    (hd : fsGet fs "/data/app" = some Node.dir) :
    uploadPrep fs "/data/app" false = (fs, none) := by
  simp only [uploadPrep]
  rw [show (if false = true then removeAll fs "/data/app" else fs) = fs from rfl]
  rw [mkdirAll_of_dir fs "/data/app" hd]

lemma uploadDispatch_newtxt (fs2 : FS) (stream : InStream) (mode : Nat)
    (bytes : List Nat)
    (htar : stream.tarEntries = [⟨"new.txt", TarType.reg, mode, bytes⟩])
    (hre : stream.tarReadErr = false)
    (hdir : fsGet fs2 "/data/app" = some Node.dir)
    (hnew : fsGet fs2 "/data/app/new.txt" = none) :
    uploadDispatch fs2 stream "/data/app" "a.tar" =
      (setNode fs2 "/data/app/new.txt" (Node.file bytes), Except.ok "/data/app") := by
  simp only [uploadDispatch,
    show classifyUpload "a.tar" = UploadKind.plainTar from rfl, htar, hre]
  simp only [extractTar, extractEntries,
    extractStep_newtxt fs2 mode bytes hdir hnew]
  rfl

lemma uploadFile_replace_eq (fs : FS) (stream : InStream) (mode : Nat)
    (bytes : List Nat)
    (hdata : fsGet fs "/data" = some Node.dir)
    (htar : stream.tarEntries = [⟨"new.txt", TarType.reg, mode, bytes⟩])
    (hre : stream.tarReadErr = false) :
    UploadFile fs stream "/data/app" "a.tar" "" true "/" =
      (setNode (setNode (removeAll fs "/data/app") "/data/app" Node.dir)
         "/data/app/new.txt" (Node.file bytes), Except.ok "/data/app") := by
  simp only [UploadFile,
    show uploadValidate fs "/data/app" "" "/" = Except.ok "/data/app" from rfl,
    uploadPrep_replace fs hdata]
  exact uploadDispatch_newtxt _ stream mode bytes htar hre
    (fsGet_setNode_self _ "/data/app" Node.dir (by decide))
    (by
      rw [fsGet_setNode_ne _ "/data/app" Node.dir "/data/app/new.txt" (by decide)]
      exact fsGet_removeAll_gone fs "/data/app" "/data/app/new.txt" (by decide) (by decide))

lemma uploadFile_merge_eq (fs : FS) (stream : InStream) (mode : Nat)
    (bytes : List Nat)
    (happ : fsGet fs "/data/app" = some Node.dir)
    (hnew : fsGet fs "/data/app/new.txt" = none)
    (htar : stream.tarEntries = [⟨"new.txt", TarType.reg, mode, bytes⟩])
    (hre : stream.tarReadErr = false) :
    UploadFile fs stream "/data/app" "a.tar" "" false "/" =
      (setNode fs "/data/app/new.txt" (Node.file bytes), Except.ok "/data/app") := by
  simp only [UploadFile,
    show uploadValidate fs "/data/app" "" "/" = Except.ok "/data/app" from rfl,
    uploadPrep_merge fs happ]
  exact uploadDispatch_newtxt fs stream mode bytes htar hre happ hnew

lemma uploadDispatch_badgzip (fs2 : FS) (stream : InStream)
    (hgz : stream.gzipOk = false) :
    uploadDispatch fs2 stream "/data/app" "x.tar.gz" =
      (fs2, Except.error UploadErr.gzipHeaderErr) := by
  simp only [uploadDispatch,
    show classifyUpload "x.tar.gz" = UploadKind.gzipTar from rfl, hgz]
  rfl

lemma extractEntries_append_ok (base : String) (l1 l2 : List TarEntry) :
    ∀ (fs fs1 : FS), extractEntries base fs l1 = (fs1, none) →
      extractEntries base fs (l1 ++ l2) = extractEntries base fs1 l2 := by
  induction l1 with
  | nil =>
    intro fs fs1 h
    simp only [extractEntries] at h
    cases h
    rfl
  | cons e t ih =>
    intro fs fs1 h
    simp only [extractEntries, List.cons_append] at h ⊢
    cases hs : extractStep base fs e with
    | mk fsa oe =>
      rw [hs] at h
      cases oe with
      | some err => simp at h
      | none => exact ih fsa fs1 h

lemma extractStep_unsafe (base : String) (fs : FS) (e : TarEntry)
    (h : (goIsAbs (goClean e.name) || strHasPfx (goClean e.name) "../" ||
          goClean e.name == "..") = true) :
    extractStep base fs e = (fs, some ExtractErr.unsafeEntry) := by
  simp only [extractStep, h]
  rfl

/-! ## Claim theorems -/

/-- C3: a tar archive containing an entry whose canonicalized name is
absolute or begins with a parent-traversal segment is rejected with a
Forbidden-category error, and the rejected entry contributes nothing to
the filesystem: the state returned is exactly the state after the entries
preceding it. -/
theorem extractTar_rejects_unsafe_entry
    (fs fs1 : FS) (base archiveName : String) (pre rest : List TarEntry)
    (bad : TarEntry) (readErr : Bool)
    (hpre : extractEntries base fs pre = (fs1, none))
    (hbad : (goIsAbs (goClean bad.name) || strHasPfx (goClean bad.name) "../" ||
             goClean bad.name == "..") = true) :
    extractTar fs (pre ++ bad :: rest) readErr base archiveName =
      (fs1, some ExtractErr.unsafeEntry) ∧
    ExtractErr.unsafeEntry.isForbidden = true := by
  constructor
  · have h1 : extractEntries base fs (pre ++ bad :: rest) =
        (fs1, some ExtractErr.unsafeEntry) := by
      rw [extractEntries_append_ok base pre (bad :: rest) fs fs1 hpre]
      simp only [extractEntries, extractStep_unsafe base fs1 bad hbad]
    simp only [extractTar, h1]
  · rfl

/-- Witness for C3 at a concrete archive: the entry "../escape.txt". -/
theorem extractTar_rejects_unsafe_entry_witness :
    extractTar [("/data/app", Node.dir)]
        [⟨"../escape.txt", TarType.reg, 420, []⟩] false "/data/app" "a.tar" =
      ([("/data/app", Node.dir)], some ExtractErr.unsafeEntry) ∧
    ExtractErr.unsafeEntry.isForbidden = true :=
  extractTar_rejects_unsafe_entry [("/data/app", Node.dir)] [("/data/app", Node.dir)]
    "/data/app" "a.tar" [] [] ⟨"../escape.txt", TarType.reg, 420, []⟩ false
    rfl (by decide)

/-- C4: a tar stream whose first header decode yields end-of-stream with
zero entries processed fails as an empty/invalid archive, a BadFormat
error; in particular a `.tar.gz` upload whose payload is valid gzip but an
empty tar stream fails with BadFormat instead of silently succeeding. -/
theorem extractTar_empty_is_badFormat :
    (∀ (fs : FS) (base archiveName : String), archiveName ≠ "" →
       extractTar fs [] false base archiveName =
         (fs, some ExtractErr.emptyArchive) ∧
       ExtractErr.emptyArchive.isBadFormat = true) ∧
    ((UploadFile [("/data", Node.dir), ("/data/app", Node.dir)]
        ⟨true, [], false, [], false, none, []⟩
        "/data/app" "x.tar.gz" "" true "/").2 =
      Except.error (UploadErr.extractFail ExtractErr.emptyArchive) ∧
     (UploadErr.extractFail ExtractErr.emptyArchive).isBadFormat = true) := by
  constructor
  · intro fs base archiveName h
    constructor
    · have hb : (archiveName != "") = true := by
        simpa using h
      simp only [extractTar, extractEntries, List.isEmpty_nil, hb]
      rfl
    · rfl
  · constructor
    · rfl
    · rfl

/-- Witness for C4's hypothesis-bearing arm at a concrete archive name. -/
theorem extractTar_empty_is_badFormat_witness :
    extractTar [] [] false "/data/app" "x.tar.gz" =
      ([], some ExtractErr.emptyArchive) ∧
    ExtractErr.emptyArchive.isBadFormat = true :=
  extractTar_empty_is_badFormat.1 [] "/data/app" "x.tar.gz" (by decide)

/-- C6: the upload dispatch classifies by suffix with `.tar.gz`/`.tgz`
before `.tar` before `.gz` before plain copy; a name ending in `.tar.gz`
is always treated as a gzipped tar archive, never as a lone gzip file. -/
theorem classifyUpload_precedence :
    (∀ name, strHasSfx (strToLower name) ".tar.gz" = true →
       classifyUpload name = UploadKind.gzipTar) ∧
    (∀ name, strHasSfx (strToLower name) ".tgz" = true →
       classifyUpload name = UploadKind.gzipTar) ∧
    (∀ name, strHasSfx (strToLower name) ".tar" = true →
       strHasSfx (strToLower name) ".tar.gz" = false →
       strHasSfx (strToLower name) ".tgz" = false →
       classifyUpload name = UploadKind.plainTar) ∧
    (∀ name, strHasSfx (strToLower name) ".gz" = true →
       strHasSfx (strToLower name) ".tar.gz" = false →
       strHasSfx (strToLower name) ".tgz" = false →
       strHasSfx (strToLower name) ".tar" = false →
       classifyUpload name = UploadKind.singleGz) ∧
    (∀ name, strHasSfx (strToLower name) ".tgz" = false →
       strHasSfx (strToLower name) ".tar.gz" = false →
       strHasSfx (strToLower name) ".tar" = false →
       strHasSfx (strToLower name) ".gz" = false →
       classifyUpload name = UploadKind.plainFile) := by
  refine ⟨?_, ?_, ?_, ?_, ?_⟩
  · intro name h
    simp [classifyUpload, h]
  · intro name h
    simp [classifyUpload, h]
  · intro name h1 h2 h3
    simp [classifyUpload, h1, h2, h3]
  · intro name h1 h2 h3 h4
    simp [classifyUpload, h1, h2, h3, h4]
  · intro name h1 h2 h3 h4
    simp [classifyUpload, h1, h2, h3, h4]

/-- Witness for C6 at the concrete name "app.tar.gz". -/
theorem classifyUpload_precedence_witness :
    classifyUpload "app.tar.gz" = UploadKind.gzipTar :=
  classifyUpload_precedence.1 "app.tar.gz" (by decide)

/-- C8: sizes 0-1023 render as "<n> B"; 1024 renders as "1.0 KiB";
1048576 renders as "1.0 MiB" (one decimal, binary units). -/
theorem formatFileSize_spec :
    (∀ s : Int, 0 ≤ s → s < 1024 →
       formatFileSizeService s = toString s ++ " B") ∧
    formatFileSizeService 1024 = "1.0 KiB" ∧
    formatFileSizeService 1048576 = "1.0 MiB" := by
  refine ⟨?_, by decide, by decide⟩
  intro s _ h
  simp [formatFileSizeService, h]

/-- Witness for C8's hypothesis-bearing arm at the concrete size 1023. -/
theorem formatFileSize_spec_witness :
    formatFileSizeService 1023 = "1023 B" :=
  formatFileSize_spec.1 1023 (by decide) (by decide)

/-- C5: a replace-mode upload of an archive containing only `new.txt` into
an existing directory that contained `old.txt` first deletes the directory
and recreates it, so only `new.txt` is present afterwards; a merge-mode
upload leaves the prior contents in place so both files are present. -/
theorem upload_replace_deletes_merge_keeps
    (fs : FS) (c bytes : List Nat) (mode : Nat) (stream : InStream)
    (hdata : fsGet fs "/data" = some Node.dir)
    (happ : fsGet fs "/data/app" = some Node.dir)
    (hold : fsGet fs "/data/app/old.txt" = some (Node.file c))
    (hnew : fsGet fs "/data/app/new.txt" = none)
    (htar : stream.tarEntries = [⟨"new.txt", TarType.reg, mode, bytes⟩])
    (hre : stream.tarReadErr = false) :
    ((UploadFile fs stream "/data/app" "a.tar" "" true "/").2 =
        Except.ok "/data/app" ∧
     fsGet (UploadFile fs stream "/data/app" "a.tar" "" true "/").1
        "/data/app/new.txt" = some (Node.file bytes) ∧
     fsGet (UploadFile fs stream "/data/app" "a.tar" "" true "/").1
        "/data/app/old.txt" = none) ∧
    ((UploadFile fs stream "/data/app" "a.tar" "" false "/").2 =
        Except.ok "/data/app" ∧
     fsGet (UploadFile fs stream "/data/app" "a.tar" "" false "/").1
        "/data/app/new.txt" = some (Node.file bytes) ∧
     fsGet (UploadFile fs stream "/data/app" "a.tar" "" false "/").1
        "/data/app/old.txt" = some (Node.file c)) := by
  rw [uploadFile_replace_eq fs stream mode bytes hdata htar hre,
    uploadFile_merge_eq fs stream mode bytes happ hnew htar hre]
  refine ⟨⟨rfl, ?_, ?_⟩, rfl, ?_, ?_⟩
  · exact fsGet_setNode_self _ _ _ (by decide)
  · rw [fsGet_setNode_ne _ _ _ _ (by decide),
      fsGet_setNode_ne _ _ _ _ (by decide)]
    exact fsGet_removeAll_gone fs "/data/app" "/data/app/old.txt" (by decide) (by decide)
  · exact fsGet_setNode_self _ _ _ (by decide)
  · rw [fsGet_setNode_ne _ _ _ _ (by decide)]
    exact hold

/-- Witness for C5 at a concrete starting filesystem. -/
theorem upload_replace_deletes_merge_keeps_witness :
    ((UploadFile [("/data", Node.dir), ("/data/app", Node.dir),
        ("/data/app/old.txt", Node.file [1])]
        ⟨true, [], false, [⟨"new.txt", TarType.reg, 420, [7]⟩], false, none, []⟩
        "/data/app" "a.tar" "" true "/").2 = Except.ok "/data/app" ∧
     fsGet (UploadFile [("/data", Node.dir), ("/data/app", Node.dir),
        ("/data/app/old.txt", Node.file [1])]
        ⟨true, [], false, [⟨"new.txt", TarType.reg, 420, [7]⟩], false, none, []⟩
        "/data/app" "a.tar" "" true "/").1 "/data/app/new.txt" =
          some (Node.file [7]) ∧
     fsGet (UploadFile [("/data", Node.dir), ("/data/app", Node.dir),
        ("/data/app/old.txt", Node.file [1])]
        ⟨true, [], false, [⟨"new.txt", TarType.reg, 420, [7]⟩], false, none, []⟩
        "/data/app" "a.tar" "" true "/").1 "/data/app/old.txt" = none) ∧
    ((UploadFile [("/data", Node.dir), ("/data/app", Node.dir),
        ("/data/app/old.txt", Node.file [1])]
        ⟨true, [], false, [⟨"new.txt", TarType.reg, 420, [7]⟩], false, none, []⟩
        "/data/app" "a.tar" "" false "/").2 = Except.ok "/data/app" ∧
     fsGet (UploadFile [("/data", Node.dir), ("/data/app", Node.dir),
        ("/data/app/old.txt", Node.file [1])]
        ⟨true, [], false, [⟨"new.txt", TarType.reg, 420, [7]⟩], false, none, []⟩
        "/data/app" "a.tar" "" false "/").1 "/data/app/new.txt" =
          some (Node.file [7]) ∧
     fsGet (UploadFile [("/data", Node.dir), ("/data/app", Node.dir),
        ("/data/app/old.txt", Node.file [1])]
        ⟨true, [], false, [⟨"new.txt", TarType.reg, 420, [7]⟩], false, none, []⟩
        "/data/app" "a.tar" "" false "/").1 "/data/app/old.txt" =
          some (Node.file [1])) :=
  upload_replace_deletes_merge_keeps
    [("/data", Node.dir), ("/data/app", Node.dir), ("/data/app/old.txt", Node.file [1])]
    [1] [7] 420
    ⟨true, [], false, [⟨"new.txt", TarType.reg, 420, [7]⟩], false, none, []⟩
    (by decide) (by decide) (by decide) (by decide) rfl rfl

/-- C9: in replace mode the target directory is destroyed and recreated
before any payload byte is read or validated, so an upload whose payload
then fails gzip-header validation still returns with the prior contents of
the target directory gone and an empty target directory in place: the
failure is not atomic with respect to the directory's prior state. -/
theorem uploadFile_replace_destroys_before_payload
    (fs : FS) (c : List Nat) (stream : InStream)
    (hdata : fsGet fs "/data" = some Node.dir)
    (happ : fsGet fs "/data/app" = some Node.dir)
    (hold : fsGet fs "/data/app/old.txt" = some (Node.file c))
    (hgz : stream.gzipOk = false) :
    (UploadFile fs stream "/data/app" "x.tar.gz" "" true "/").2 =
        Except.error UploadErr.gzipHeaderErr ∧
    UploadErr.gzipHeaderErr.isBadFormat = true ∧
    fsGet (UploadFile fs stream "/data/app" "x.tar.gz" "" true "/").1
        "/data/app" = some Node.dir ∧
    (∀ q, strHasPfx q ("/data/app" ++ "/") = true →
       fsGet (UploadFile fs stream "/data/app" "x.tar.gz" "" true "/").1 q = none) := by
  have heq : UploadFile fs stream "/data/app" "x.tar.gz" "" true "/" =
      (setNode (removeAll fs "/data/app") "/data/app" Node.dir,
       Except.error UploadErr.gzipHeaderErr) := by
    simp only [UploadFile,
      show uploadValidate fs "/data/app" "" "/" = Except.ok "/data/app" from rfl,
      uploadPrep_replace fs hdata]
    exact uploadDispatch_badgzip _ stream hgz
  rw [heq]
  refine ⟨rfl, rfl, fsGet_setNode_self _ _ _ (by decide), ?_⟩
  intro q hq
  by_cases h1 : q = "/"
  · subst h1
    exact absurd hq (by decide)
  by_cases h2 : q = "/data/app"
  · subst h2
    exact absurd hq (by decide)
  rw [fsGet_setNode_ne _ _ _ _ h2]
  exact fsGet_removeAll_gone fs "/data/app" q (by rw [hq]; simp) h1

/-- Witness for C9: a concrete filesystem loses `old.txt` even though the
upload fails. -/
theorem uploadFile_replace_destroys_before_payload_witness :
    (UploadFile [("/data", Node.dir), ("/data/app", Node.dir),
        ("/data/app/old.txt", Node.file [1])]
        ⟨false, [], false, [], false, none, []⟩
        "/data/app" "x.tar.gz" "" true "/").2 =
      Except.error UploadErr.gzipHeaderErr ∧
    fsGet (UploadFile [("/data", Node.dir), ("/data/app", Node.dir),
        ("/data/app/old.txt", Node.file [1])]
        ⟨false, [], false, [], false, none, []⟩
        "/data/app" "x.tar.gz" "" true "/").1 "/data/app/old.txt" = none :=
  have h := uploadFile_replace_destroys_before_payload
    [("/data", Node.dir), ("/data/app", Node.dir), ("/data/app/old.txt", Node.file [1])]
    [1] ⟨false, [], false, [], false, none, []⟩
    (by decide) (by decide) (by decide) rfl
  ⟨h.1, h.2.2.2 "/data/app/old.txt" (by decide)⟩

/-- C10: with no prefix configured, a target directory that cleans to the
empty string or to "." is rejected before any filesystem operation (the
state is returned unchanged); with an active prefix, a bare "." target is
accepted and designates the prefix root. -/
theorem uploadFile_bare_target :
    (∀ (fs : FS) (stream : InStream) (target fileName cwd : String)
       (isPut : Bool),
       (goClean target = "" ∨ goClean target = ".") →
       (UploadFile fs stream target fileName "" isPut cwd =
          (fs, Except.error UploadErr.emptyTarget) ∨
        UploadFile fs stream target fileName "" isPut cwd =
          (fs, Except.error UploadErr.dotTarget))) ∧
    (UploadFile [("/data", Node.dir)] ⟨true, [], false, [], false, none, [3]⟩
        "." "f.txt" "/data" false "/").2 = Except.ok "/data/f.txt" := by
  constructor
  · intro fs stream target fileName cwd isPut h
    rcases h with h | h
    · left
      simp [UploadFile, uploadValidate, h, cleanPfx]
    · right
      simp [UploadFile, uploadValidate, h, cleanPfx]
  · decide

/-- Witness for C10: the target "." with no prefix is rejected. -/
theorem uploadFile_bare_target_witness :
    UploadFile [] ⟨true, [], false, [], false, none, []⟩ "." "f.txt" "" false "/" =
      ([], Except.error UploadErr.emptyTarget) ∨
    UploadFile [] ⟨true, [], false, [], false, none, []⟩ "." "f.txt" "" false "/" =
      ([], Except.error UploadErr.dotTarget) :=
  uploadFile_bare_target.1 [] ⟨true, [], false, [], false, none, []⟩
    "." "f.txt" "/" false (Or.inr (by decide))

/-- C2: whenever `ResolveAndValidatePath` succeeds, the returned resolved
path is equal to or a strict descendant of the effective base directory
(the absolute prefix when one is active, the working directory otherwise),
and that containment is witnessed by the canonical relative path, which
does not begin with a parent-traversal segment. -/
theorem resolve_ok_descendant (stat : String → Option Bool)
    (cwd raw env t d : String)
    (hcwd : cwd.data.head? = some '/')
    (hok : ResolveAndValidatePath stat cwd raw env = Except.ok (t, d)) :
    isDescendant (resolveBaseOf cwd env) t ∧
    ∃ r, goRel (resolveBaseOf cwd env) t = some r ∧ strHasPfx r ".." = false := by
  simp only [ResolveAndValidatePath] at hok
  split at hok
  · exact Except.noConfusion hok
  split at hok
  · exact Except.noConfusion hok
  split at hok
  · exact Except.noConfusion hok
  split at hok
  · exact Except.noConfusion hok
  next relPath hrel =>
    split at hok
    · exact Except.noConfusion hok
    next hcheck =>
      have hpair := Except.ok.inj hok
      rw [Prod.ext_iff] at hpair
      obtain ⟨ht_eq, _⟩ := hpair
      subst ht_eq
      have hnd : strHasPfx relPath ".." = false := by
        rcases Bool.or_eq_false_iff.mp (Bool.not_eq_true _ |>.mp hcheck) with ⟨hh, _⟩
        exact hh
      refine ⟨?_, relPath, hrel, hnd⟩
      exact goRel_descendant _ _ relPath
        (resolveBaseOf_head cwd env hcwd)
        (resolveTargetOf_head cwd raw env hcwd)
        (resolveBaseOf_clean cwd env hcwd)
        (resolveTargetOf_clean cwd raw env hcwd)
        hrel hnd

/-- C1: any request that, after canonicalization against the effective base
directory, resolves outside that base is answered with a Forbidden error
and no resolved path; and with an active prefix, a request whose cleaned
form begins with a parent-traversal segment is rejected up front. -/
theorem resolve_outside_forbidden :
    (∀ (stat : String → Option Bool) (cwd raw env r : String),
       cwd.data.head? = some '/' →
       (cleanPfx env ≠ "" → stat (cleanPfx env) = some true) →
       goRel (resolveBaseOf cwd env) (resolveTargetOf cwd raw env) = some r →
       (r = ".." ∨ strHasPfx r "../" = true) →
       ∃ e, ResolveAndValidatePath stat cwd raw env = Except.error e ∧
         e.isForbidden = true) ∧
    (∀ (stat : String → Option Bool) (cwd raw env : String),
       cleanPfx env ≠ "" → strHasPfx (goClean raw) ".." = true →
       ∃ e, ResolveAndValidatePath stat cwd raw env = Except.error e ∧
         e.isForbidden = true) := by
  constructor
  · intro stat cwd raw env r _ hstat hrel hout
    have hdd : (strHasPfx r ".." || r == "..") = true := by
      rcases hout with h | h
      · simp [h]
      · simp [strHasPfx_dotslash_dot r h]
    simp only [ResolveAndValidatePath]
    by_cases h1 : (cleanPfx env != "" && strHasPfx (goClean raw) "..") = true
    · rw [if_pos h1]
      exact ⟨ResolveErr.forbiddenTraversal, rfl, rfl⟩
    rw [if_neg h1]
    by_cases h2 : (cleanPfx env != "" &&
        (goIsAbs raw && !(strHasPfx raw (cleanPfx env)) && raw != "/")) = true
    · rw [if_pos h2]
      exact ⟨ResolveErr.forbiddenAbsOutside, rfl, rfl⟩
    rw [if_neg h2]
    have hgate : (if cleanPfx env != "" then
                    match stat (cleanPfx env) with
                    | none => some ResolveErr.pfxNotFound
                    | some false => some ResolveErr.pfxNotDir
                    | some true => none
                  else none) = none := by
      by_cases hp : cleanPfx env != ""
      · rw [if_pos hp, hstat (by simpa using hp)]
      · rw [if_neg hp]
    simp only [hgate, hrel, if_pos hdd]
    refine ⟨_, rfl, ?_⟩
    split
    · rfl
    · rfl
  · intro stat cwd raw env hp hpre
    simp only [ResolveAndValidatePath]
    rw [if_pos (by simp [hpre, bne_iff_ne, hp] :
      (cleanPfx env != "" && strHasPfx (goClean raw) "..") = true)]
    exact ⟨ResolveErr.forbiddenTraversal, rfl, rfl⟩

/-- Witness for C1: the request "../x" under prefix "/data" resolves
outside the prefix and is rejected as Forbidden. -/
theorem resolve_outside_forbidden_witness :
    ∃ e, ResolveAndValidatePath demoStat "/" "../x" "/data" = Except.error e ∧
      e.isForbidden = true :=
  resolve_outside_forbidden.1 demoStat "/" "../x" "/data" "../x"
    (by decide) (fun _ => by decide) (by decide) (Or.inr (by decide))

/-- Witness for C2: a successful resolution under the prefix "/data" lands
inside it. -/
theorem resolve_ok_descendant_witness :
    isDescendant (resolveBaseOf "/" "/data") "/data/sub" ∧
    ∃ r, goRel (resolveBaseOf "/" "/data") "/data/sub" = some r ∧
      strHasPfx r ".." = false :=
  resolve_ok_descendant demoStat "/" "/data/sub" "/data" "/data/sub" "/sub"
    (by decide) (by decide)

/-- C7: the displayPath returned on success always starts with '/', never
ends with a trailing separator unless it is exactly "/", collapses to "/"
for the root cases (empty, ".", "/" and prefix-equal requests), and is the
prefix-independent normalization of the prefix-stripped request. -/
theorem resolve_displayPath_spec :
    (∀ (stat : String → Option Bool) (cwd raw env t d : String),
       ResolveAndValidatePath stat cwd raw env = Except.ok (t, d) →
       d.data.head? = some '/' ∧
       (d.data.getLast? = some '/' → d = "/") ∧
       d = normalizeDisplay (effectiveSubOf raw env)) ∧
    (∀ (stat : String → Option Bool) (cwd env t d : String),
       ResolveAndValidatePath stat cwd "" env = Except.ok (t, d) → d = "/") ∧
    (∀ (stat : String → Option Bool) (cwd env t d : String),
       ResolveAndValidatePath stat cwd "." env = Except.ok (t, d) → d = "/") ∧
    (∀ (stat : String → Option Bool) (cwd env t d : String),
       ResolveAndValidatePath stat cwd "/" env = Except.ok (t, d) → d = "/") ∧
    (∀ (stat : String → Option Bool) (cwd env t d : String),
       goIsAbs (cleanPfx env) = true →
       ResolveAndValidatePath stat cwd (cleanPfx env) env = Except.ok (t, d) →
       d = "/") := by
  have hmain : ∀ (stat : String → Option Bool) (cwd raw env t d : String),
      ResolveAndValidatePath stat cwd raw env = Except.ok (t, d) →
      d = normalizeDisplay (effectiveSubOf raw env) :=
    fun stat cwd raw env t d hok => resolve_ok_display stat cwd raw env t d hok
  refine ⟨?_, ?_, ?_, ?_, ?_⟩
  · intro stat cwd raw env t d hok
    have hd := hmain stat cwd raw env t d hok
    rw [hd]
    have hp := normalizeDisplay_props (effectiveSubOf raw env)
    exact ⟨hp.1, hp.2, rfl⟩
  · intro stat cwd env t d hok
    rw [hmain stat cwd "" env t d hok, effectiveSubOf_empty]
    decide
  · intro stat cwd env t d hok
    rw [hmain stat cwd "." env t d hok, effectiveSubOf_dot]
    decide
  · intro stat cwd env t d hok
    rw [hmain stat cwd "/" env t d hok]
    simp only [effectiveSubOf]
    by_cases hp : cleanPfx env != ""
    · rw [if_pos hp, if_pos (by decide : ((("/" : String) == "/")) = true)]
      decide
    · rw [if_neg hp]
      decide
  · intro stat cwd env t d habs hok
    rw [hmain stat cwd (cleanPfx env) env t d hok, effectiveSubOf_pfx env habs]
    decide

/-- Witness for C7: a successful resolution below the prefix "/data". -/
theorem resolve_displayPath_spec_witness :
    ("/sub" : String).data.head? = some '/' ∧
    (("/sub" : String).data.getLast? = some '/' → ("/sub" : String) = "/") ∧
    ("/sub" : String) = normalizeDisplay (effectiveSubOf "/data/sub" "/data") :=
  resolve_displayPath_spec.1 demoStat "/" "/data/sub" "/data" "/data/sub" "/sub"
    (by decide)
end DeployTar
